import Mathlib

/-!
Verification of the passari-workflow preservation pipeline.

This file shallowly embeds the core data model and operations of the
passari-workflow repository (SQLAlchemy models, stage jobs, freeze/unfreeze
scripts, queue helpers, CMS sync and the DPRES reconciler) as executable Lean
definitions, and proves or refutes the specification claims about them.

Modelling conventions:
* timestamps (timezone-aware datetimes) are modelled as integers (`Int`);
* nullable columns are `Option` values;
* the SQL sentinel `datetime.datetime.min` used in `coalesce` is a parameter
  `dmin : Int`;
* SQL three-valued logic in WHERE clauses is modelled by boolean helpers in
  which any comparison involving NULL evaluates to `false` (UNKNOWN rows are
  not selected);
* Python `!=` / `==` on nullable values is ordinary `Option` (dis)equality;
* fallible operations return `Except WfError`; raising an exception before any
  database write is modelled by returning `.error` (no new state is produced).
-/

/-- Source of a freeze, from `passari_workflow/db/models.py` (`FreezeSource`). -/
inductive FreezeSource where
  | USER
  | AUTOMATIC
deriving DecidableEq, Repr

/-- A `MuseumPackage` row (`passari_workflow/db/models.py`): one packaging
attempt of one museum object. Only the columns used by the verified
operations are modelled. -/
structure MuseumPackage where
  sip_filename : String
  sip_id : String
  object_modified_date : Option Int
  metadata_hash : Option String
  attachment_metadata_hash : Option String
  downloaded : Bool
  packaged : Bool
  uploaded : Bool
  rejected : Bool
  preserved : Bool
  cancelled : Bool
deriving DecidableEq, Repr

/-- A `MuseumObject` row (`passari_workflow/db/models.py`). The relationship
`latest_package` (via `latest_package_id`) is embedded directly as an
optional package. -/
structure MuseumObject where
  title : Option String
  preserved : Bool
  frozen : Bool
  freeze_reason : Option String
  freeze_source : Option FreezeSource
  created_date : Option Int
  modified_date : Option Int
  metadata_hash : Option String
  attachment_metadata_hash : Option String
  latest_package : Option MuseumPackage
deriving DecidableEq, Repr

/-- Errors raised by the embedded operations. -/
inductive WfError where
  /-- sqlalchemy `Query.one()` found no row. -/
  | noResultFound
  /-- Python `EnvironmentError` with a message. -/
  | environmentError (msg : String)
  /-- Python `ValueError` with a message. -/
  | valueError (msg : String)
  /-- `passari_workflow.exceptions.WorkflowJobRunningError`. -/
  | workflowJobRunning
  /-- `OSError` with `errno == ENOSPC`. -/
  | outOfDiskSpace
deriving DecidableEq, Repr

/-- SQL `a < b` where `a` is a nullable column: NULL comparisons are UNKNOWN
and select no row. -/
def sqlLt : Option Int → Int → Bool
  | some a, b => a < b
  | none, _ => false

/-- SQL `a > b` where `a` is a nullable column. -/
def sqlGt : Option Int → Int → Bool
  | some a, b => a > b
  | none, _ => false

/-- SQL `a != b` on two nullable string columns: UNKNOWN unless both non-NULL. -/
def sqlNeS : Option String → Option String → Bool
  | some a, some b => a != b
  | _, _ => false

/-- SQL `a = b` on two nullable string columns: UNKNOWN unless both non-NULL. -/
def sqlEqS : Option String → Option String → Bool
  | some a, some b => a == b
  | _, _ => false

/-- SQL `coalesce(x, d)`. -/
def coalesceD (x : Option Int) (d : Int) : Int := x.getD d

/-- The Python property `MuseumObject.preservation_pending`
(`passari_workflow/db/models.py`, lines 323-372). `now` is the current UTC
time, `P` the preservation delay and `U` the update delay; the code computes
`preservation_boundary = now - P` and `update_boundary = now - U`.
Python `!=` on optional values is plain `Option` disequality (`None != None`
is `False`, `None != date` is `True`), and `not x` on an optional is a
None-test (datetimes are always truthy). -/
def preservation_pending (now P U : Int) (o : MuseumObject) : Bool :=
  !o.frozen
  && (o.metadata_hash.isSome && o.attachment_metadata_hash.isSome)
  && ( ( o.latest_package.isNone
         && (o.created_date.isNone || sqlLt o.created_date (now - P)) )
    || (match o.latest_package with
        | some lp =>
            (lp.object_modified_date != o.modified_date)
            && (lp.object_modified_date.isNone
                || sqlLt lp.object_modified_date (now - U))
            && ((lp.metadata_hash != o.metadata_hash)
                || (lp.attachment_metadata_hash != o.attachment_metadata_hash))
        | none => false)
    || (match o.latest_package with
        | some lp => lp.cancelled
        | none => false) )

/-- The SQL query transformation `filter_preservation_pending`
(`passari_workflow/db/models.py`, lines 375-439), evaluated row by row on the
left outer join of a `MuseumObject` with its latest `MuseumPackage`.
`dmin` models the `datetime.datetime.min` sentinel used in `coalesce`. -/
def filter_preservation_pending (now P U dmin : Int) (o : MuseumObject) : Bool :=
  (o.frozen == false)
  && (o.attachment_metadata_hash.isSome && o.metadata_hash.isSome)
  && ( ( o.latest_package.isNone
         && (o.created_date.isNone || sqlLt o.created_date (now - P)) )
    || (match o.latest_package with
        | some lp =>
            (coalesceD lp.object_modified_date dmin
              != coalesceD o.modified_date dmin)
            && (lp.object_modified_date.isNone
                || sqlLt lp.object_modified_date (now - U))
            && (sqlNeS o.metadata_hash lp.metadata_hash
                || sqlNeS o.attachment_metadata_hash lp.attachment_metadata_hash)
        | none => false)
    || (match o.latest_package with
        | some lp => lp.cancelled
        | none => false) )

/-- The SQL query transformation `exclude_preservation_pending`
(`passari_workflow/db/models.py`, lines 442-505), evaluated row by row on the
left outer join of a `MuseumObject` with its latest `MuseumPackage`. -/
def exclude_preservation_pending (now P U dmin : Int) (o : MuseumObject) : Bool :=
  o.metadata_hash.isNone
  || o.attachment_metadata_hash.isNone
  || o.frozen
  || (o.latest_package.isNone && sqlGt (some (coalesceD o.created_date dmin)) (now - P))
  || (match o.latest_package with
      | some lp =>
          (lp.cancelled == false)
          && ( (coalesceD lp.object_modified_date dmin
                 == coalesceD o.modified_date dmin)
            || sqlGt (some (coalesceD lp.object_modified_date dmin)) (now - U)
            || (sqlEqS lp.metadata_hash o.metadata_hash
                && sqlEqS lp.attachment_metadata_hash o.attachment_metadata_hash) )
      | none => false)

/-- The stage job `confirm_sip` (`passari_workflow/jobs/confirm_sip.py`).
`status` is the content of the `<sip_filename>.status` file; `o` and `p` are
the object row (matched by id) and package row (matched by `sip_filename`)
that the two UPDATE statements touch. The `ValueError` is raised before the
external confirm step and before any database session is opened, so an error
result carries no state change. -/
def confirm_sip (status : String) (o : MuseumObject) (p : MuseumPackage) :
    Except WfError (MuseumObject × MuseumPackage) :=
  if status = "accepted" ∨ status = "rejected" then
    .ok
      ( (if status = "accepted" then { o with preserved := true } else o),
        { p with preserved := status == "accepted",
                 rejected := status == "rejected" } )
  else
    .error (.valueError ("Invalid preservation status: " ++ status))

/-- The per-row effect of the two bulk UPDATE statements of `sync_objects`
(`passari_workflow/scripts/sync_objects.py`, lines 135-162) on an existing
object row: `stmt_a` unconditionally sets `title` and `metadata_hash`;
`stmt_b` sets `modified_date` only under the guard
`modified_date IS NULL OR modified_date < incoming` (a NULL incoming value
makes the `<` comparison UNKNOWN, so the row is not updated). -/
def sync_objects_update_row (o : MuseumObject) (title : Option String)
    (modified_date : Option Int) (metadata_hash : Option String) : MuseumObject :=
  let o' := { o with title := title, metadata_hash := metadata_hash }
  match o.modified_date, modified_date with
  | none, incoming => { o' with modified_date := incoming }
  | some s, some i => if s < i then { o' with modified_date := some i } else o'
  | some _, none => o'

/-- C4: for a non-frozen object with complete metadata hashes and no latest
package, `preservation_pending` holds iff `created_date` is null or strictly
earlier than `now - P`; in particular `created_date = now - P + 1` is not
pending and `created_date = now - P - 1` is pending. -/
theorem preservation_pending_first_time (now P U : Int) (o : MuseumObject)
    (h1 : o.frozen = false) (h2 : o.metadata_hash.isSome)
    (h3 : o.attachment_metadata_hash.isSome) (h4 : o.latest_package = none) :
    (preservation_pending now P U o = true ↔
      (o.created_date = none ∨ ∃ c, o.created_date = some c ∧ c < now - P))
    ∧ (o.created_date = some (now - P + 1) → preservation_pending now P U o = false)
    ∧ (o.created_date = some (now - P - 1) → preservation_pending now P U o = true) := by
  constructor
  · cases hc : o.created_date with
    | none =>
        simp [preservation_pending, h1, h4, h2, h3, sqlLt, hc]
    | some c =>
        simp [preservation_pending, h1, h4, h2, h3, sqlLt, hc]
  · constructor
    · intro hc
      simp [preservation_pending, h1, h4, hc, sqlLt, h2, h3]
    · intro hc
      simp [preservation_pending, h1, h4, hc, sqlLt, h2, h3]

/-- Witness for `preservation_pending_first_time` at a concrete object. -/
theorem preservation_pending_first_time_witness :
    let o : MuseumObject :=
      { title := none, preserved := false, frozen := false, freeze_reason := none,
        freeze_source := none, created_date := some (-2), modified_date := none,
        metadata_hash := some "a", attachment_metadata_hash := some "",
        latest_package := none }
    preservation_pending 0 1 1 o = true := by
  intro o
  exact ((preservation_pending_first_time 0 1 1 o rfl (by decide) (by decide)
    rfl).1).2 (Or.inr ⟨-2, rfl, by decide⟩)

/-- C3: `confirm_sip` raises `ValueError` iff the status file content is
neither `accepted` nor `rejected` (leaving the database untouched: the error
is returned instead of any updated state); otherwise the package's
`preserved` flag becomes true iff the content is `accepted`, its `rejected`
flag becomes true iff the content is `rejected`, and the object's
`preserved` flag is set to true exactly when the content is `accepted`. -/
theorem confirm_sip_spec (status : String) (o : MuseumObject) (p : MuseumPackage) :
    (¬(status = "accepted" ∨ status = "rejected") →
      confirm_sip status o p =
        .error (.valueError ("Invalid preservation status: " ++ status)))
    ∧ (status = "accepted" →
        confirm_sip status o p =
          .ok ({ o with preserved := true },
               { p with preserved := true, rejected := false }))
    ∧ (status = "rejected" →
        confirm_sip status o p =
          .ok (o, { p with preserved := false, rejected := true })) := by
  refine ⟨fun h => ?_, fun h => ?_, fun h => ?_⟩
  · simp [confirm_sip, h]
  · subst h
    simp [confirm_sip]
  · subst h
    simp [confirm_sip]

/-- Witness for `confirm_sip_spec`: concrete runs on the "accepted",
"rejected" and invalid status contents. -/
theorem confirm_sip_spec_witness :
    let o : MuseumObject :=
      { title := none, preserved := false, frozen := false, freeze_reason := none,
        freeze_source := none, created_date := none, modified_date := none,
        metadata_hash := some "a", attachment_metadata_hash := some "",
        latest_package := none }
    let p : MuseumPackage :=
      { sip_filename := "Object_1.tar", sip_id := "20190101-000000",
        object_modified_date := none, metadata_hash := some "a",
        attachment_metadata_hash := some "", downloaded := true,
        packaged := true, uploaded := true, rejected := false,
        preserved := false, cancelled := false }
    confirm_sip "accepted" o p =
      .ok ({ o with preserved := true }, { p with preserved := true, rejected := false })
    ∧ confirm_sip "bogus" o p =
      .error (.valueError "Invalid preservation status: bogus") := by
  intro o p
  exact ⟨(confirm_sip_spec "accepted" o p).2.1 rfl,
    (confirm_sip_spec "bogus" o p).1 (by decide)⟩

/-- C7: the `sync_objects` bulk update never regresses `modified_date`: a
stored value is replaced only when it is NULL or strictly older than the
incoming value and is kept otherwise, and applying the same update twice
changes nothing on the second run. -/
theorem sync_objects_update_row_monotone (o : MuseumObject) (t : Option String)
    (m : Option Int) (h : Option String) :
    (∀ s, o.modified_date = some s →
      ∃ s', (sync_objects_update_row o t m h).modified_date = some s' ∧ s ≤ s')
    ∧ (o.modified_date = none → (sync_objects_update_row o t m h).modified_date = m)
    ∧ (∀ s i, o.modified_date = some s → m = some i →
        (sync_objects_update_row o t m h).modified_date =
          (if s < i then some i else some s))
    ∧ (∀ s, o.modified_date = some s → m = none →
        (sync_objects_update_row o t m h).modified_date = some s)
    ∧ sync_objects_update_row (sync_objects_update_row o t m h) t m h =
        sync_objects_update_row o t m h := by
  refine ⟨fun s hs => ?_, fun hs => ?_, fun s i hs hm => ?_, fun s hs hm => ?_, ?_⟩
  · cases m with
    | none => exact ⟨s, by simp [sync_objects_update_row, hs], le_refl s⟩
    | some i =>
        by_cases hlt : s < i
        · exact ⟨i, by simp [sync_objects_update_row, hs, hlt], le_of_lt hlt⟩
        · exact ⟨s, by simp [sync_objects_update_row, hs, hlt], le_refl s⟩
  · simp [sync_objects_update_row, hs]
  · subst hm
    by_cases hlt : s < i <;> simp [sync_objects_update_row, hs, hlt]
  · subst hm
    simp [sync_objects_update_row, hs]
  · rcases o with ⟨ti, pr, fz, fr, fs, cd, md, mh, ah, lp⟩
    cases md with
    | none =>
        cases m with
        | none => simp [sync_objects_update_row]
        | some i => simp [sync_objects_update_row]
    | some s =>
        cases m with
        | none => simp [sync_objects_update_row]
        | some i =>
            by_cases hlt : s < i
            · simp [sync_objects_update_row, hlt]
            · simp [sync_objects_update_row, hlt]

/-- Witness for `sync_objects_update_row_monotone` at a concrete row. -/
theorem sync_objects_update_row_monotone_witness :
    let o : MuseumObject :=
      { title := some "t", preserved := false, frozen := false,
        freeze_reason := none, freeze_source := none, created_date := none,
        modified_date := some 5,
        metadata_hash := some "a", attachment_metadata_hash := some "",
        latest_package := none }
    (sync_objects_update_row o (some "t2") (some 3) (some "b")).modified_date = some 5 := by
  intro o
  have := (sync_objects_update_row_monotone o (some "t2") (some 3) (some "b")).2.2.1
    5 3 rfl rfl
  simpa using this

/-- Decimal digit characters of a natural number, most significant first,
modelling Python's `str`/`%d` formatting of a non-negative integer. -/
def nat_decimal_chars (n : Nat) : List Char :=
  if n = 0 then ['0'] else ((Nat.digits 10 n).reverse.map Nat.digitChar)

/-- Decimal string of a natural number. -/
def nat_decimal (n : Nat) : String := ⟨nat_decimal_chars n⟩

/-- Python `int(s)` restricted to an optional sign and ASCII digits with
surrounding whitespace, returning `none` where `int` raises `ValueError`.
(The full CPython parser also accepts digit-group underscores, but the
strings this model parses are underscore-separated segments, which never
contain an underscore.) -/
def py_digits (cs : List Char) : Option Nat :=
  if cs ≠ [] ∧ cs.all (·.isDigit) then
    some (cs.foldl (fun a c => 10 * a + (c.toNat - 48)) 0)
  else none

/-- Python `int(s)` on a segment: strip whitespace, optional sign, digits. -/
def py_int (cs : List Char) : Option Int :=
  let cs := cs.dropWhile (·.isWhitespace)
  let cs := (cs.reverse.dropWhile (·.isWhitespace)).reverse
  match cs with
  | [] => none
  | c :: rest =>
    if c = '-' then (py_digits rest).map (fun n => -(n : Int))
    else if c = '+' then (py_digits rest).map (fun n => (n : Int))
    else (py_digits (c :: rest)).map (fun n => (n : Int))

/-- Python `s.split("_")` on the character list of a string: always returns a
nonempty list of (possibly empty) segments. -/
def splitU : List Char → List (List Char)
  | [] => [[]]
  | c :: rest =>
    let r := splitU rest
    if c = '_' then [] :: r
    else
      match r with
      | [] => [[c]]
      | g :: gs => (c :: g) :: gs

/-- `job_id_to_object_id` (`passari_workflow/queue/queues.py`, lines 28-36):
`int(job_id.split("_")[-1])`, catching `ValueError` and returning `None`. -/
def job_id_to_object_id (job_id : String) : Option Int :=
  py_int ((splitU job_id.toList).getLastD [])

/-- The four stage queue names (`QueueType` in
`passari_workflow/queue/queues.py`). -/
def queue_type_values : List String :=
  ["download_object", "create_sip", "submit_sip", "confirm_sip"]

/-- `get_enqueued_object_ids` (`passari_workflow/queue/queues.py`,
lines 73-104): the input list is the concatenation of the job ids found in
the started and failed registries and the pending queues of all stage
queues; ids whose parse is `None` are skipped, the rest are collected into a
set (modelled as a duplicate-free list in discovery order). -/
def get_enqueued_object_ids (job_ids : List String) : List Int :=
  job_ids.foldl
    (fun acc jid =>
      match job_id_to_object_id jid with
      | some oid => if acc.contains oid then acc else acc ++ [oid]
      | none => acc)
    []

/-- `get_running_object_ids` (`passari_workflow/queue/queues.py`,
lines 107-124): same collection loop over only the started registries. -/
def get_running_object_ids (job_ids : List String) : List Int :=
  job_ids.foldl
    (fun acc jid =>
      match job_id_to_object_id jid with
      | some oid => if acc.contains oid then acc else acc ++ [oid]
      | none => acc)
    []

/-- Workflow-visible persistent state: the museum object rows (keyed by id)
and the ids of the jobs present across all queues and registries. -/
structure WorkflowState where
  objects : List (Nat × MuseumObject)
  jobs : List String
deriving DecidableEq, Repr

/-- `delete_jobs_for_object_id` (`passari_workflow/queue/queues.py`,
lines 53-70): delete the job `<queue>_<object_id>` from every stage queue,
returning the new job list and how many jobs were deleted. -/
def delete_jobs_for_object_id (object_id : Nat) (jobs : List String) :
    List String × Nat :=
  let ids := queue_type_values.map (fun q => q ++ "_" ++ nat_decimal object_id)
  (jobs.filter (fun j => !(ids.contains j)),
   (jobs.filter (fun j => ids.contains j)).length)

/-- `freeze_running_object` (`passari_workflow/jobs/utils.py`, lines 42-87).
The source queries `MuseumObject` *inner*-joined with `MuseumPackage` on
`MuseumObject.latest_package_id == MuseumPackage.id` and calls `.one()`:
when the object's `latest_package_id` is NULL the join produces no row and
`.one()` raises `NoResultFound`. Otherwise the object is frozen with source
AUTOMATIC and, when the latest package's `sip_id` matches, that package is
marked cancelled. (The best-effort log archiving and directory removal are
filesystem-only and are not modelled.) -/
def freeze_running_object (sip_id : String) (freeze_reason : String)
    (o : MuseumObject) : Except WfError MuseumObject :=
  match o.latest_package with
  | none => .error .noResultFound
  | some lp =>
      let o' := { o with frozen := true, freeze_reason := some freeze_reason,
                         freeze_source := some FreezeSource.AUTOMATIC }
      if lp.sip_id == sip_id then
        .ok { o' with latest_package := some { lp with cancelled := true } }
      else
        .ok o'

/-- Outcome of the external downloader invoked by `download_object`
(`passari.scripts.download_object.main`). -/
inductive DownloadOutcome where
  | ok (sip_filename : String) (modified_date : Option Int)
  | preservationError (error : String)
  | outOfDiskSpace
deriving DecidableEq, Repr

/-- The stage job `download_object` (`passari_workflow/jobs/download_object.py`,
lines 18-104) for the object `object_id` currently stored as `o`:
on `PreservationError` the object is frozen via `freeze_running_object` and
the job returns; on `ENOSPC` the error is re-raised; otherwise a package row
with `downloaded=True` and hash snapshots is created (failing loudly when a
package with the same `sip_filename` already exists), `latest_package` is
pointed at it and `create_sip_<object_id>` is enqueued. Returns the updated
object together with the newly enqueued job ids. -/
def download_object (object_id : Nat) (outcome : DownloadOutcome)
    (sip_id : String) (existing_sip_filenames : List String)
    (o : MuseumObject) : Except WfError (MuseumObject × List String) :=
  match outcome with
  | .preservationError msg =>
      (freeze_running_object sip_id msg o).map (fun o' => (o', []))
  | .outOfDiskSpace => .error .outOfDiskSpace
  | .ok filename md =>
      if existing_sip_filenames.contains filename then
        .error (.environmentError
          ("Package with filename " ++ filename ++ " already exists"))
      else
        let pkg : MuseumPackage :=
          { sip_filename := filename, sip_id := sip_id,
            object_modified_date := md,
            metadata_hash := o.metadata_hash,
            attachment_metadata_hash := o.attachment_metadata_hash,
            downloaded := true, packaged := false, uploaded := false,
            rejected := false, preserved := false, cancelled := false }
        .ok ({ o with latest_package := some pkg },
             ["create_sip_" ++ nat_decimal object_id])

/-- Truthiness of an optional Python string (`if reason:`): `None` and the
empty string are falsy. -/
def pyTruthy : Option String → Bool
  | some r => r != ""
  | none => false

/-- `freeze_objects` (`passari_workflow/scripts/freeze_objects.py`,
lines 21-95). `running_ids` is the result of `get_running_object_ids()`.
If any supplied object id has a running job the call raises
`WorkflowJobRunningError` before touching the database or the queues;
otherwise every listed object is frozen, each listed object's latest package
that is neither preserved, rejected nor cancelled is cancelled, and, when
`delete_jobs` is set, the jobs of every listed object are deleted. Returns
the updated state and the `(freeze_count, cancel_count)` pair. -/
def freeze_objects (running_ids : List Nat) (object_ids : List Nat)
    (reason : Option String) (source : FreezeSource) (delete_jobs : Bool)
    (st : WorkflowState) : Except WfError (WorkflowState × Nat × Nat) :=
  if object_ids.any (fun i => running_ids.contains i) then
    .error .workflowJobRunning
  else
    let cancellable := fun (lp : MuseumPackage) =>
      !lp.preserved && !lp.rejected && !lp.cancelled
    let freeze_count :=
      (st.objects.filter (fun p => object_ids.contains p.1)).length
    let cancel_count :=
      (st.objects.filter (fun p =>
        object_ids.contains p.1 &&
          (match p.2.latest_package with
           | some lp => cancellable lp
           | none => false))).length
    let objects' := st.objects.map (fun p =>
      if object_ids.contains p.1 then
        (p.1, { p.2 with
                  frozen := true,
                  freeze_reason := reason,
                  freeze_source := some source,
                  latest_package := p.2.latest_package.map (fun lp =>
                    if cancellable lp then { lp with cancelled := true } else lp) })
      else p)
    let jobs' :=
      if delete_jobs then
        object_ids.foldl (fun js i => (delete_jobs_for_object_id i js).1) st.jobs
      else st.jobs
    .ok ({ objects := objects', jobs := jobs' }, freeze_count, cancel_count)

/-- `unfreeze_objects` (`passari_workflow/scripts/unfreeze_objects.py`,
lines 13-65). Raises `ValueError` unless a (truthy) reason or a non-empty id
list is given. Every frozen object matching the reason and/or id filters is
unfrozen with its freeze metadata cleared; its latest package is detached
unless that package is preserved; with `enqueue` a download job is scheduled
for each. Returns the updated state and the number of objects updated. -/
def unfreeze_objects (reason : Option String) (object_ids : List Nat)
    (enqueue : Bool) (st : WorkflowState) :
    Except WfError (WorkflowState × Nat) :=
  if !pyTruthy reason && object_ids.isEmpty then
    .error (.valueError "Either 'reason' or 'object_ids' has to be provided")
  else
    let sel := fun (p : Nat × MuseumObject) =>
      p.2.frozen
      && (if pyTruthy reason then p.2.freeze_reason == reason else true)
      && (if !object_ids.isEmpty then object_ids.contains p.1 else true)
    let unfreeze1 := fun (o : MuseumObject) =>
      let o' := { o with frozen := false, freeze_reason := none,
                         freeze_source := none }
      match o.latest_package with
      | some lp => if !lp.preserved then { o' with latest_package := none } else o'
      | none => o'
    let objects' := st.objects.map (fun p =>
      if sel p then (p.1, unfreeze1 p.2) else p)
    let jobs' :=
      if enqueue then
        st.jobs ++ (st.objects.filter sel).map
          (fun p => "download_object_" ++ nat_decimal p.1)
      else st.jobs
    .ok ({ objects := objects', jobs := jobs' },
         (st.objects.filter sel).length)

/-- The enqueue loop of `enqueue_objects`
(`passari_workflow/scripts/enqueue_objects.py`, lines 67-74): walk the
eligibility query results in order, schedule a download for every object not
already enqueued, and stop as soon as the number of newly scheduled jobs
reaches `object_count` (checked after each row). Returns the newly scheduled
object ids in order. -/
def enqueue_objects_loop (object_count : Nat) (enqueued : List Nat) :
    List Nat → Nat → List Nat
  | [], _ => []
  | i :: rest, count =>
      if !enqueued.contains i then
        let count' := count + 1
        i :: (if count' ≥ object_count then []
              else enqueue_objects_loop object_count enqueued rest count')
      else
        if count ≥ object_count then []
        else enqueue_objects_loop object_count enqueued rest count

/-- `enqueue_objects` (`passari_workflow/scripts/enqueue_objects.py`,
lines 33-78). `eligible` is the list of object ids produced by the
eligibility query in iteration order (the `random` flag only permutes this
order and is therefore absorbed into `eligible`); `enqueued` is
`get_enqueued_object_ids()`. When `object_ids` is a non-empty list the
source replaces `object_count` by `len(object_ids)` and restricts the query
to those ids. Returns the newly scheduled object ids. -/
def enqueue_objects (object_count : Nat) (object_ids : List Nat)
    (eligible : List Nat) (enqueued : List Nat) : List Nat :=
  let object_count :=
    if !object_ids.isEmpty then object_ids.length else object_count
  let stream :=
    if !object_ids.isEmpty then
      eligible.filter (fun i => object_ids.contains i)
    else eligible
  enqueue_objects_loop object_count enqueued stream 0

/-- C2 (code bug): when the external downloader raises `PreservationError`
for an object whose `latest_package` is null (a first-time object),
`download_object` does not freeze the object and return normally: the inner
join inside `freeze_running_object` finds no row and `Query.one()` raises
`NoResultFound`, which propagates out of the job. -/
theorem download_object_preservation_error_null_latest_package :
    let o : MuseumObject :=
      { title := none, preserved := false, frozen := false, freeze_reason := none,
        freeze_source := none, created_date := some 0, modified_date := none,
        metadata_hash := some "a", attachment_metadata_hash := some "",
        latest_package := none }
    download_object 1 (.preservationError "Unsupported file format: wad")
        "20190203-120000" [] o = .error .noResultFound
    ∧ o.frozen = false := by
  exact ⟨rfl, rfl⟩

/-- C5: `freeze_objects` refuses with `WorkflowJobRunningError` whenever any
supplied object id has a running job; the error is raised before any
database or queue mutation, so no object, package or job is touched. -/
theorem freeze_objects_refuses_running (running object_ids : List Nat)
    (reason : Option String) (source : FreezeSource) (delete_jobs : Bool)
    (st : WorkflowState) (h : ∃ i, i ∈ object_ids ∧ i ∈ running) :
    freeze_objects running object_ids reason source delete_jobs st =
      .error .workflowJobRunning := by
  rcases h with ⟨i, hmem, hrun⟩
  have hany : object_ids.any (fun i => running.contains i) = true := by
    simp only [List.any_eq_true]
    exact ⟨i, hmem, by simpa using hrun⟩
  simp [freeze_objects, hany]
  exact ⟨i, hmem, hrun⟩

/-- Witness for `freeze_objects_refuses_running` at a concrete state. -/
theorem freeze_objects_refuses_running_witness :
    freeze_objects [7] [7] (some "bad files") FreezeSource.USER true
        ⟨[], ["download_object_7"]⟩ = .error .workflowJobRunning :=
  freeze_objects_refuses_running [7] [7] (some "bad files") FreezeSource.USER
    true ⟨[], ["download_object_7"]⟩ ⟨7, by decide, by decide⟩

/-- C10: when `object_ids` is a non-empty list, the `object_count` argument
of `enqueue_objects` is ignored (the cap becomes `len(object_ids)`), and the
call can therefore schedule more download jobs than `object_count` asked
for: with `object_count = 1` and three eligible requested ids, three jobs
are scheduled. -/
theorem enqueue_objects_ignores_object_count :
    (∀ (c1 c2 : Nat) (object_ids eligible enqueued : List Nat),
      object_ids ≠ [] →
        enqueue_objects c1 object_ids eligible enqueued =
          enqueue_objects c2 object_ids eligible enqueued)
    ∧ (enqueue_objects 1 [1, 2, 3] [1, 2, 3] []).length = 3 ∧ 1 < 3 := by
  refine ⟨fun c1 c2 ids eligible enq h => ?_, by decide, by decide⟩
  cases ids with
  | nil => exact absurd rfl h
  | cons a tl => simp [enqueue_objects]

/-- Witness for `enqueue_objects_ignores_object_count` at concrete inputs. -/
theorem enqueue_objects_ignores_object_count_witness :
    enqueue_objects 5 [4] [4] [] = enqueue_objects 99 [4] [4] [] :=
  enqueue_objects_ignores_object_count.1 5 99 [4] [4] [] (by decide)

/-- C6 counterexample: for an object whose `latest_package` was already null
before the freeze, freeze followed by unfreeze leaves `latest_package` null
even though no prior latest package "existed and was not preserved" — the
claimed biconditional is false at this input. -/
theorem freeze_unfreeze_counterexample :
    let o : MuseumObject :=
      { title := none, preserved := false, frozen := false, freeze_reason := none,
        freeze_source := none, created_date := some 0, modified_date := none,
        metadata_hash := some "a", attachment_metadata_hash := some "",
        latest_package := none }
    let o1 : MuseumObject :=
      { o with frozen := true, freeze_reason := some "r",
               freeze_source := some FreezeSource.USER }
    freeze_objects [] [1] (some "r") FreezeSource.USER false ⟨[(1, o)], []⟩ =
        .ok (⟨[(1, o1)], []⟩, 1, 0)
    ∧ unfreeze_objects none [1] false ⟨[(1, o1)], []⟩ = .ok (⟨[(1, o)], []⟩, 1)
    ∧ ¬((o.latest_package = none) ↔
        (∃ lp, o.latest_package = some lp ∧ lp.preserved = false)) := by
  refine ⟨rfl, rfl, ?_⟩
  intro hiff
  rcases hiff.mp rfl with ⟨lp, hlp, _⟩
  exact Option.noConfusion hlp

/-- Effect of `freeze_objects` on a single-object state when the object has
no running job: the object is frozen, its latest package is cancelled when
it is in no terminal state, and its jobs are deleted when requested. -/
theorem freeze_objects_single (running : List Nat) (i : Nat) (o : MuseumObject)
    (jobs : List String) (reason : Option String) (source : FreezeSource)
    (dj : Bool) (h : i ∉ running) :
    freeze_objects running [i] reason source dj ⟨[(i, o)], jobs⟩ =
      .ok (⟨[(i, { o with
                   frozen := true,
                   freeze_reason := reason,
                   freeze_source := some source,
                   latest_package := o.latest_package.map (fun lp =>
                     if !lp.preserved && !lp.rejected && !lp.cancelled
                     then { lp with cancelled := true } else lp) })],
            if dj then (delete_jobs_for_object_id i jobs).1 else jobs⟩,
           1,
           if (match o.latest_package with
               | some lp => !lp.preserved && !lp.rejected && !lp.cancelled
               | none => false) = true
           then 1 else 0) := by
  have hany : ([i].any fun j => running.contains j) = false := by simpa using h
  simp only [freeze_objects, hany]
  by_cases hc : (match o.latest_package with
      | some lp => !lp.preserved && !lp.rejected && !lp.cancelled
      | none => false) = true
  · simp [hc, h]
  · simp [hc, h]

/-- Effect of `unfreeze_objects` (by explicit id, without enqueueing) on a
single-object state holding one frozen object. -/
theorem unfreeze_objects_single (i : Nat) (o : MuseumObject)
    (jobs : List String) (hfz : o.frozen = true) :
    unfreeze_objects none [i] false ⟨[(i, o)], jobs⟩ =
      .ok (⟨[(i, { o with
                   frozen := false,
                   freeze_reason := none,
                   freeze_source := none,
                   latest_package := match o.latest_package with
                     | some lp => if lp.preserved then some lp else none
                     | none => none })], jobs⟩, 1) := by
  cases hlp : o.latest_package with
  | none => simp [unfreeze_objects, pyTruthy, hfz, hlp, List.filter_cons, List.filter_nil]
  | some lp =>
      by_cases hpres : lp.preserved = true
      · simp [unfreeze_objects, pyTruthy, hfz, hlp, hpres,
          List.filter_cons, List.filter_nil]
      · simp only [Bool.not_eq_true] at hpres
        simp [unfreeze_objects, pyTruthy, hfz, hlp, hpres,
          List.filter_cons, List.filter_nil]

/-- C6 (amended): freezing an object (with no running job) and then
unfreezing it, with nothing in between, leaves it unfrozen with its freeze
metadata cleared, and its `latest_package` is null iff before the freeze it
was already null or was a non-preserved package; a preserved latest package
is kept unchanged. -/
theorem freeze_unfreeze_roundtrip (running : List Nat) (i : Nat)
    (o : MuseumObject) (jobs : List String) (reason : Option String)
    (source : FreezeSource) (delete_jobs : Bool) (hrun : i ∉ running) :
    ∃ st1 fc cc st2 o',
      freeze_objects running [i] reason source delete_jobs ⟨[(i, o)], jobs⟩ =
        .ok (st1, fc, cc)
      ∧ unfreeze_objects none [i] false st1 = .ok (st2, 1)
      ∧ st2.objects = [(i, o')]
      ∧ o'.frozen = false ∧ o'.freeze_reason = none ∧ o'.freeze_source = none
      ∧ (o'.latest_package = none ↔
          (o.latest_package = none ∨
            ∃ lp, o.latest_package = some lp ∧ lp.preserved = false))
      ∧ (∀ lp, o.latest_package = some lp → lp.preserved = true →
          o'.latest_package = some lp) := by
  refine ⟨_, _, _, _, _, freeze_objects_single running i o jobs reason source
    delete_jobs hrun, unfreeze_objects_single i _ _ rfl, rfl, rfl, rfl, rfl, ?_, ?_⟩
  · cases hlp : o.latest_package with
    | none => simp [hlp]
    | some lp =>
        by_cases hpres : lp.preserved = true
        · simp only [hlp, Option.map_some]
          constructor
          · intro hnone
            simp [hpres] at hnone
          · rintro (hn | ⟨lp', hlp', hpres'⟩)
            · exact Option.noConfusion hn
            · injection hlp' with heq
              rw [heq] at hpres
              rw [hpres] at hpres'
              exact Bool.noConfusion hpres'
        · simp only [Bool.not_eq_true] at hpres
          simp only [hlp, Option.map_some]
          constructor
          · intro _
            exact Or.inr ⟨lp, rfl, hpres⟩
          · intro _
            rcases Bool.eq_false_or_eq_true lp.rejected with hr | hr <;>
              rcases Bool.eq_false_or_eq_true lp.cancelled with hc | hc <;>
                simp [hpres, hr, hc]
  · intro lp hlp hpres
    rw [hlp]
    simp [hpres]

/-- Witness for `freeze_unfreeze_roundtrip` at a concrete object with a
non-preserved latest package. -/
theorem freeze_unfreeze_roundtrip_witness :
    let lp : MuseumPackage :=
      { sip_filename := "Object_1.tar", sip_id := "20190101-000000",
        object_modified_date := some 3, metadata_hash := some "a",
        attachment_metadata_hash := some "", downloaded := true,
        packaged := false, uploaded := false, rejected := false,
        preserved := false, cancelled := false }
    let o : MuseumObject :=
      { title := none, preserved := false, frozen := false, freeze_reason := none,
        freeze_source := none, created_date := some 0, modified_date := some 3,
        metadata_hash := some "a", attachment_metadata_hash := some "",
        latest_package := some lp }
    ∃ st1 fc cc st2 o',
      freeze_objects [] [1] (some "broken") FreezeSource.USER false
          ⟨[(1, o)], []⟩ = .ok (st1, fc, cc)
      ∧ unfreeze_objects none [1] false st1 = .ok (st2, 1)
      ∧ st2.objects = [(1, o')]
      ∧ o'.frozen = false ∧ o'.freeze_reason = none ∧ o'.freeze_source = none
      ∧ (o'.latest_package = none ↔
          (o.latest_package = none ∨
            ∃ q, o.latest_package = some q ∧ q.preserved = false))
      ∧ (∀ q, o.latest_package = some q → q.preserved = true →
          o'.latest_package = some q) := by
  intro lp o
  exact freeze_unfreeze_roundtrip [] 1 o [] (some "broken") FreezeSource.USER
    false (by simp)

/-- Unfolding equation of `splitU` at an underscore. -/
theorem splitU_cons_underscore (ys : List Char) :
    splitU ('_' :: ys) = [] :: splitU ys := by
  simp [splitU]

/-- Unfolding equation of `splitU` at a non-underscore character. -/
theorem splitU_cons_of_ne (c : Char) (rest : List Char) (h : c ≠ '_') :
    splitU (c :: rest) =
      match splitU rest with
      | [] => [[c]]
      | g :: gs => (c :: g) :: gs := by
  simp [splitU, h]

/-- `splitU` never returns the empty list of segments. -/
theorem splitU_ne_nil (cs : List Char) : splitU cs ≠ [] := by
  induction cs with
  | nil => simp [splitU]
  | cons c rest ih =>
      by_cases hc : c = '_'
      · subst hc
        rw [splitU_cons_underscore]
        simp
      · rw [splitU_cons_of_ne c rest hc]
        cases h : splitU rest with
        | nil => simp
        | cons g gs => simp

/-- Splitting a list without underscores yields a single segment. -/
theorem splitU_no_underscore (cs : List Char) (h : '_' ∉ cs) :
    splitU cs = [cs] := by
  induction cs with
  | nil => rfl
  | cons c rest ih =>
      have hc : c ≠ '_' := fun hcc => h (hcc ▸ List.mem_cons_self c rest)
      have hrest : '_' ∉ rest := fun hr => h (List.mem_cons_of_mem c hr)
      rw [splitU_cons_of_ne c rest hc, ih hrest]

/-- `List.getLastD` ignores its default on nonempty lists. -/
theorem getLastD_of_ne_nil {α : Type} (l : List α) (h : l ≠ []) (d1 d2 : α) :
    l.getLastD d1 = l.getLastD d2 := by
  cases l with
  | nil => exact absurd rfl h
  | cons a t => rw [List.getLastD_cons, List.getLastD_cons]

/-- A list containing an underscore splits into at least two segments. -/
theorem splitU_length_ge_two (xs ys : List Char) :
    2 ≤ (splitU (xs ++ '_' :: ys)).length := by
  induction xs with
  | nil =>
      rw [List.nil_append, splitU_cons_underscore]
      have := splitU_ne_nil ys
      cases h : splitU ys with
      | nil => exact absurd h this
      | cons g gs => simp [h]
  | cons c xs ih =>
      rw [List.cons_append]
      by_cases hc : c = '_'
      · subst hc
        rw [splitU_cons_underscore]
        have := splitU_ne_nil (xs ++ '_' :: ys)
        cases h : splitU (xs ++ '_' :: ys) with
        | nil => exact absurd h this
        | cons g gs => simp [h]
      · rw [splitU_cons_of_ne c _ hc]
        cases h : splitU (xs ++ '_' :: ys) with
        | nil => exact absurd h (splitU_ne_nil _)
        | cons g gs =>
            rw [h] at ih
            simpa using ih

/-- The last segment of a split is determined by the part after the last
underscore. -/
theorem splitU_getLastD_append (xs ys : List Char) :
    (splitU (xs ++ '_' :: ys)).getLastD [] = (splitU ys).getLastD [] := by
  induction xs with
  | nil =>
      rw [List.nil_append, splitU_cons_underscore, List.getLastD_cons]
  | cons c xs ih =>
      rw [List.cons_append]
      by_cases hc : c = '_'
      · subst hc
        rw [splitU_cons_underscore, List.getLastD_cons, ih]
      · rw [splitU_cons_of_ne c _ hc]
        cases h : splitU (xs ++ '_' :: ys) with
        | nil => exact absurd h (splitU_ne_nil _)
        | cons g gs =>
            have hlen := splitU_length_ge_two xs ys
            rw [h] at hlen
            have hgs : gs ≠ [] := by
              intro hnil
              rw [hnil] at hlen
              simp at hlen
            rw [h] at ih
            simp only [List.getLastD_cons] at ih ⊢
            rw [← ih]
            exact getLastD_of_ne_nil gs hgs (c :: g) g

/-- Facts about decimal digit characters, by exhaustive check. -/
theorem digitChar_facts : ∀ d, d < 10 →
    (Nat.digitChar d).isDigit = true ∧ (Nat.digitChar d).toNat - 48 = d ∧
    Nat.digitChar d ≠ '_' := by decide

/-- A digit character is not whitespace and not a sign character. -/
theorem isDigit_shape (c : Char) (h : c.isDigit = true) :
    c.isWhitespace = false ∧ c ≠ '-' ∧ c ≠ '+' := by
  refine ⟨?_, ?_, ?_⟩
  · revert h
    simp only [Char.isDigit, Char.isWhitespace]
    intro h
    simp only [Bool.and_eq_true, decide_eq_true_eq] at h
    rcases h with ⟨h1, h2⟩
    simp only [Bool.or_eq_false_iff, decide_eq_false_iff_not]
    refine ⟨⟨⟨?_, ?_⟩, ?_⟩, ?_⟩ <;> intro heq <;> rw [heq] at h1 h2 <;>
      revert h1 <;> decide
  · intro hc
    rw [hc] at h
    exact absurd h (by decide)
  · intro hc
    rw [hc] at h
    exact absurd h (by decide)

/-- Dropping leading whitespace from an all-digit list is a no-op. -/
theorem dropWhile_ws_of_all_digit (l : List Char) (h : l.all (·.isDigit) = true) :
    l.dropWhile (·.isWhitespace) = l := by
  cases l with
  | nil => rfl
  | cons c t =>
      have hc : c.isDigit = true := by
        simp only [List.all_cons, Bool.and_eq_true] at h
        exact h.1
      simp [List.dropWhile_cons, (isDigit_shape c hc).1]

/-- Big-endian digit folding computes the positional value. -/
theorem foldl_msd (L : List Nat) (a : Nat) :
    List.foldl (fun acc d => 10 * acc + d) a L.reverse =
      a * 10 ^ L.length + Nat.ofDigits 10 L := by
  induction L generalizing a with
  | nil => simp
  | cons d T ih =>
      simp only [List.reverse_cons, List.foldl_append, List.foldl_cons,
        List.foldl_nil, ih, Nat.ofDigits_cons, List.length_cons]
      ring

/-- Folding the character-level digit step over digit characters agrees with
the numeric fold. -/
theorem foldl_digit_chars (L : List Nat) (a : Nat) (h : ∀ d ∈ L, d < 10) :
    List.foldl (fun acc c => 10 * acc + (c.toNat - 48)) a (L.map Nat.digitChar) =
      List.foldl (fun acc d => 10 * acc + d) a L := by
  induction L generalizing a with
  | nil => rfl
  | cons d T ih =>
      have hd : d < 10 := h d (List.mem_cons_self d T)
      simp only [List.map_cons, List.foldl_cons, (digitChar_facts d hd).2.1]
      exact ih _ (fun x hx => h x (List.mem_cons_of_mem d hx))

/-- The decimal printer produces a nonempty all-digit, underscore-free list. -/
theorem nat_decimal_chars_shape (n : Nat) :
    nat_decimal_chars n ≠ [] ∧ (nat_decimal_chars n).all (·.isDigit) = true ∧
    '_' ∉ nat_decimal_chars n := by
  by_cases hn : n = 0
  · subst hn
    refine ⟨by decide, by decide, by decide⟩
  · have hlt : ∀ d ∈ Nat.digits 10 n, d < 10 :=
      fun d hd => Nat.digits_lt_base (by norm_num) hd
    simp only [nat_decimal_chars, hn, if_false]
    refine ⟨?_, ?_, ?_⟩
    · simp only [ne_eq, List.map_eq_nil_iff, List.reverse_eq_nil_iff]
      exact Nat.digits_ne_nil_iff_ne_zero.mpr hn
    · simp only [List.all_eq_true]
      intro c hc
      rcases List.mem_map.mp hc with ⟨d, hd, rfl⟩
      exact (digitChar_facts d (hlt d (List.mem_reverse.mp hd))).1
    · intro hmem
      rcases List.mem_map.mp hmem with ⟨d, hd, hchar⟩
      exact (digitChar_facts d (hlt d (List.mem_reverse.mp hd))).2.2 hchar

/-- `py_digits` parses the decimal printing of `n` back to `n`. -/
theorem py_digits_nat_decimal (n : Nat) :
    py_digits (nat_decimal_chars n) = some n := by
  by_cases hn : n = 0
  · subst hn
    decide
  · have hshape := nat_decimal_chars_shape n
    have hcond : nat_decimal_chars n ≠ [] ∧
        (nat_decimal_chars n).all (·.isDigit) = true := ⟨hshape.1, hshape.2.1⟩
    rw [py_digits, if_pos hcond]
    congr 1
    have hlt : ∀ d ∈ (Nat.digits 10 n).reverse, d < 10 :=
      fun d hd => Nat.digits_lt_base (by norm_num) (List.mem_reverse.mp hd)
    have hmap : nat_decimal_chars n =
        ((Nat.digits 10 n).reverse).map Nat.digitChar := by
      simp [nat_decimal_chars, hn]
    rw [hmap, foldl_digit_chars _ 0 hlt, foldl_msd (Nat.digits 10 n) 0]
    simp [Nat.ofDigits_digits]

/-- `py_int` on a nonempty all-digit list parses via `py_digits`. -/
theorem py_int_of_all_digit (cs : List Char) (hne : cs ≠ [])
    (hdig : cs.all (·.isDigit) = true) :
    py_int cs = (py_digits cs).map (fun n => (n : Int)) := by
  have hrevdig : cs.reverse.all (·.isDigit) = true := by
    simp only [List.all_eq_true] at hdig ⊢
    intro c hc
    exact hdig c (List.mem_reverse.mp hc)
  have h1 : cs.dropWhile (·.isWhitespace) = cs := dropWhile_ws_of_all_digit cs hdig
  have h2 : cs.reverse.dropWhile (·.isWhitespace) = cs.reverse :=
    dropWhile_ws_of_all_digit cs.reverse hrevdig
  simp only [py_int, h1, h2, List.reverse_reverse]
  cases cs with
  | nil => exact absurd rfl hne
  | cons c t =>
      have hc : c.isDigit = true := by
        simp only [List.all_cons, Bool.and_eq_true] at hdig
        exact hdig.1
      rcases isDigit_shape c hc with ⟨_, hminus, hplus⟩
      simp [hminus, hplus]

/-- The parse of a well-formed job id recovers the object id. -/
theorem job_id_to_object_id_append (stage : String) (n : Nat) :
    job_id_to_object_id (stage ++ "_" ++ nat_decimal n) = some (n : Int) := by
  have hshape := nat_decimal_chars_shape n
  have htl : (stage ++ "_" ++ nat_decimal n).toList =
      stage.toList ++ '_' :: nat_decimal_chars n := by
    show (stage ++ "_" ++ nat_decimal n).data =
      stage.data ++ '_' :: nat_decimal_chars n
    rw [String.data_append, String.data_append]
    simp [nat_decimal]
  rw [job_id_to_object_id, htl, splitU_getLastD_append,
    splitU_no_underscore _ hshape.2.2]
  rw [show ([nat_decimal_chars n].getLastD [] = nat_decimal_chars n) from rfl]
  rw [py_int_of_all_digit _ hshape.1 hshape.2.1, py_digits_nat_decimal]
  rfl

/-- Membership after one step of the id-collection fold. -/
theorem collect_step_mem (acc : List Int) (j : String) (o : Int) :
    (o ∈ (match job_id_to_object_id j with
          | some oid => if acc.contains oid then acc else acc ++ [oid]
          | none => acc)) ↔
      o ∈ acc ∨ job_id_to_object_id j = some o := by
  cases hp : job_id_to_object_id j with
  | none => simp
  | some oid =>
      by_cases hcont : oid ∈ acc
      · have hcb : acc.contains oid = true := by simpa using hcont
        simp only [hcb, if_true]
        constructor
        · exact Or.inl
        · rintro (h | h)
          · exact h
          · injection h with h
            exact h ▸ hcont
      · have hcb : acc.contains oid = false := by simpa using hcont
        simp only [hcb, Bool.false_eq_true, if_false, List.mem_append,
          List.mem_singleton, Option.some.injEq]
        constructor
        · rintro (h | h)
          · exact Or.inl h
          · exact Or.inr h.symm
        · rintro (h | h)
          · exact Or.inl h
          · exact Or.inr h.symm

/-- Membership in the id-collection fold used by the queue helpers. -/
theorem collect_object_ids_mem (job_ids : List String) (acc : List Int) (o : Int) :
    o ∈ job_ids.foldl
        (fun acc jid =>
          match job_id_to_object_id jid with
          | some oid => if acc.contains oid then acc else acc ++ [oid]
          | none => acc) acc ↔
      o ∈ acc ∨ ∃ jid ∈ job_ids, job_id_to_object_id jid = some o := by
  induction job_ids generalizing acc with
  | nil => simp
  | cons j t ih =>
      rw [List.foldl_cons, ih, collect_step_mem]
      constructor
      · rintro ((h | h) | ⟨jid, hjid, hparse⟩)
        · exact Or.inl h
        · exact Or.inr ⟨j, List.mem_cons_self j t, h⟩
        · exact Or.inr ⟨jid, List.mem_cons_of_mem j hjid, hparse⟩
      · rintro (h | ⟨jid, hjid, hparse⟩)
        · exact Or.inl (Or.inl h)
        · rcases List.mem_cons.mp hjid with rfl | hjid
          · exact Or.inl (Or.inr hparse)
          · exact Or.inr ⟨jid, hjid, hparse⟩

/-- C9: `job_id_to_object_id` is total (it is a function returning an
optional id, never an exception): on every id of the form
`<stage>_<object_id>` it returns the integer value of the last
underscore-separated segment, on a string whose last segment is not an
integer it returns `None`, and the collection loops of
`get_enqueued_object_ids` and `get_running_object_ids` silently skip the
`None` parses: an id is collected exactly when some job id parses to it. -/
theorem job_id_to_object_id_total_spec :
    (∀ (stage : String) (n : Nat),
      job_id_to_object_id (stage ++ "_" ++ nat_decimal n) = some (n : Int))
    ∧ job_id_to_object_id "deferred_enqueue" = none
    ∧ (∀ (job_ids : List String) (o : Int),
        o ∈ get_enqueued_object_ids job_ids ↔
          ∃ jid ∈ job_ids, job_id_to_object_id jid = some o)
    ∧ (∀ (job_ids : List String) (o : Int),
        o ∈ get_running_object_ids job_ids ↔
          ∃ jid ∈ job_ids, job_id_to_object_id jid = some o) := by
  refine ⟨job_id_to_object_id_append, by decide, fun job_ids o => ?_,
    fun job_ids o => ?_⟩
  · rw [get_enqueued_object_ids, collect_object_ids_mem]
    simp
  · rw [get_running_object_ids, collect_object_ids_mem]
    simp

/-- Witness for `job_id_to_object_id_total_spec` at concrete job ids. -/
theorem job_id_to_object_id_total_spec_witness :
    job_id_to_object_id ("download_object" ++ "_" ++ nat_decimal 123456) =
      some (123456 : Int) :=
  job_id_to_object_id_total_spec.1 "download_object" 123456

/-- The `SIPResult` namedtuple of
`passari_workflow/scripts/sync_processed_sips.py` (lines 24-30). -/
structure SIPResult where
  sip_filename : String
  report_path : String
  report_time : Int
  transfer_name : String
  transfer_path : Option String
  status : String
deriving DecidableEq, Repr

/-- One iteration of the inner loop of `combine_results`
(`passari_workflow/scripts/sync_processed_sips.py`, lines 137-161): insert a
result into the ordered mapping keyed by `sip_filename`, replacing an
existing entry (in place, preserving its position) only when the incoming
`report_time` is strictly newer. -/
def insert_result (results : List SIPResult) (r : SIPResult) : List SIPResult :=
  if results.any (fun x => x.sip_filename == r.sip_filename) then
    results.map (fun x =>
      if x.sip_filename = r.sip_filename ∧ r.report_time > x.report_time
      then r else x)
  else results ++ [r]

/-- `combine_results(*sip_result_lists)`
(`passari_workflow/scripts/sync_processed_sips.py`, lines 137-161): fold all
result lists, in order, into one ordered mapping keyed by `sip_filename` and
return its values. -/
def combine_results (sip_result_lists : List (List SIPResult)) : List SIPResult :=
  sip_result_lists.foldl
    (fun results sip_results => sip_results.foldl insert_result results) []

/-- The fold invariant of `combine_results`: with `seen` the results already
consumed and `acc` the current mapping, the mapping has pairwise-distinct
filenames, contains only seen results, represents every seen filename, and
holds a newest-report entry for every filename. -/
def CombineInv (seen acc : List SIPResult) : Prop :=
  acc.Pairwise (fun a b => a.sip_filename ≠ b.sip_filename)
  ∧ (∀ e ∈ acc, e ∈ seen)
  ∧ (∀ x ∈ seen, ∃ e ∈ acc, e.sip_filename = x.sip_filename)
  ∧ (∀ e ∈ acc, ∀ x ∈ seen, x.sip_filename = e.sip_filename →
      x.report_time ≤ e.report_time)

/-- `insert_result` preserves the fold invariant. -/
theorem insert_result_inv (seen acc : List SIPResult) (r : SIPResult)
    (h : CombineInv seen acc) : CombineInv (seen ++ [r]) (insert_result acc r) := by
  obtain ⟨h1, h2, h3, h4⟩ := h
  by_cases hA : (acc.any (fun x => x.sip_filename == r.sip_filename)) = true
  · -- replacement case: some entry already has this filename
    have hex : ∃ x ∈ acc, x.sip_filename = r.sip_filename := by
      rcases List.any_eq_true.mp hA with ⟨x, hx, hbeq⟩
      exact ⟨x, hx, by simpa using hbeq⟩
    simp only [insert_result, hA, if_true]
    set g := fun x : SIPResult =>
      if x.sip_filename = r.sip_filename ∧ r.report_time > x.report_time
      then r else x with hg
    have gf : ∀ x : SIPResult, (g x).sip_filename = x.sip_filename := by
      intro x
      rw [hg]
      by_cases hc : x.sip_filename = r.sip_filename ∧ r.report_time > x.report_time
      · simp only [if_pos hc]
        exact hc.1.symm
      · simp only [if_neg hc]
    have gt1 : ∀ x : SIPResult, x.report_time ≤ (g x).report_time := by
      intro x
      rw [hg]
      by_cases hc : x.sip_filename = r.sip_filename ∧ r.report_time > x.report_time
      · simp only [if_pos hc]
        exact le_of_lt hc.2
      · simp only [if_neg hc]
        exact le_refl _
    have gt2 : ∀ x : SIPResult, g x = x ∨ g x = r := by
      intro x
      rw [hg]
      by_cases hc : x.sip_filename = r.sip_filename ∧ r.report_time > x.report_time
      · exact Or.inr (if_pos hc)
      · exact Or.inl (if_neg hc)
    have gr : ∀ x : SIPResult, x.sip_filename = r.sip_filename →
        r.report_time ≤ (g x).report_time := by
      intro x hf
      rw [hg]
      by_cases ht : r.report_time > x.report_time
      · simp only [if_pos (And.intro hf ht)]
        exact le_refl _
      · simp only [hf, true_and, ht, if_false]
        exact le_of_not_lt ht
    refine ⟨?_, ?_, ?_, ?_⟩
    · exact List.Pairwise.map g
        (fun a b hab => by rw [gf a, gf b]; exact hab) h1
    · intro e he
      rcases List.mem_map.mp he with ⟨x, hx, rfl⟩
      rcases gt2 x with hgx | hgx
      · rw [hgx]
        exact List.mem_append.mpr (Or.inl (h2 x hx))
      · rw [hgx]
        exact List.mem_append.mpr (Or.inr (List.mem_singleton.mpr rfl))
    · intro x hx
      rcases List.mem_append.mp hx with hx | hx
      · rcases h3 x hx with ⟨e, he, hef⟩
        exact ⟨g e, List.mem_map.mpr ⟨e, he, rfl⟩, by rw [gf e]; exact hef⟩
      · rcases hex with ⟨x0, hx0, hx0f⟩
        rw [List.mem_singleton.mp hx]
        exact ⟨g x0, List.mem_map.mpr ⟨x0, hx0, rfl⟩, by rw [gf x0]; exact hx0f⟩
    · intro e he y hy hyf
      rcases List.mem_map.mp he with ⟨x, hx, rfl⟩
      rw [gf x] at hyf
      rcases List.mem_append.mp hy with hy | hy
      · exact le_trans (h4 x hx y hy hyf) (gt1 x)
      · rw [List.mem_singleton.mp hy]
        rw [List.mem_singleton.mp hy] at hyf
        exact gr x hyf.symm
  · -- append case: filename not yet present
    have hnotin : ∀ x ∈ acc, x.sip_filename ≠ r.sip_filename := by
      intro x hx heq
      exact hA (List.any_eq_true.mpr ⟨x, hx, by simpa using heq⟩)
    have hAf : (acc.any (fun x => x.sip_filename == r.sip_filename)) = false :=
      Bool.eq_false_iff.mpr hA
    simp only [insert_result, hAf, Bool.false_eq_true, if_false]
    refine ⟨?_, ?_, ?_, ?_⟩
    · rw [List.pairwise_append]
      refine ⟨h1, List.pairwise_singleton _ _, ?_⟩
      intro a ha b hb
      rw [List.mem_singleton.mp hb]
      exact hnotin a ha
    · intro e he
      rcases List.mem_append.mp he with he | he
      · exact List.mem_append.mpr (Or.inl (h2 e he))
      · exact List.mem_append.mpr (Or.inr he)
    · intro x hx
      rcases List.mem_append.mp hx with hx | hx
      · rcases h3 x hx with ⟨e, he, hef⟩
        exact ⟨e, List.mem_append.mpr (Or.inl he), hef⟩
      · exact ⟨r, List.mem_append.mpr (Or.inr (List.mem_singleton.mpr rfl)),
          (List.mem_singleton.mp hx) ▸ rfl⟩
    · intro e he y hy hyf
      rcases List.mem_append.mp he with he | he
      · rcases List.mem_append.mp hy with hy | hy
        · exact h4 e he y hy hyf
        · rw [List.mem_singleton.mp hy] at hyf
          exact absurd hyf.symm (hnotin e he)
      · rw [List.mem_singleton.mp he] at hyf ⊢
        rcases List.mem_append.mp hy with hy | hy
        · rcases h3 y hy with ⟨e', he', hef'⟩
          exact absurd (hef'.trans hyf) (hnotin e' he')
        · rw [List.mem_singleton.mp hy]

/-- The fold invariant holds after consuming any list of results. -/
theorem combine_fold_inv (l : List SIPResult) (seen acc : List SIPResult)
    (h : CombineInv seen acc) :
    CombineInv (seen ++ l) (l.foldl insert_result acc) := by
  induction l generalizing seen acc with
  | nil => simpa using h
  | cons r t ih =>
      have h' := insert_result_inv seen acc r h
      have hstep := ih (seen ++ [r]) (insert_result acc r) h'
      simpa [List.append_assoc] using hstep

/-- The nested fold of `combine_results` is the fold over the concatenation. -/
theorem combine_nested_foldl (ls : List (List SIPResult)) (acc : List SIPResult) :
    ls.foldl (fun results sip_results => sip_results.foldl insert_result results)
        acc = (ls.flatten).foldl insert_result acc := by
  induction ls generalizing acc with
  | nil => rfl
  | cons s t ih => simp [List.flatten, List.foldl_append, ih]

/-- C8: `combine_results` returns at most one entry per `sip_filename`
(filenames in the output are pairwise distinct), every returned entry is one
of the input entries, every input filename is represented, and each returned
entry carries a maximal `report_time` among all input entries with its
filename — so when a filename occurs several times, the retained entry is a
newest one. -/
theorem combine_results_spec (ls : List (List SIPResult)) :
    (combine_results ls).Pairwise (fun a b => a.sip_filename ≠ b.sip_filename)
    ∧ (∀ e ∈ combine_results ls, e ∈ ls.flatten)
    ∧ (∀ x ∈ ls.flatten, ∃ e ∈ combine_results ls,
        e.sip_filename = x.sip_filename)
    ∧ (∀ e ∈ combine_results ls, ∀ x ∈ ls.flatten,
        x.sip_filename = e.sip_filename → x.report_time ≤ e.report_time) := by
  have h0 : CombineInv [] [] := ⟨List.Pairwise.nil, by simp, by simp, by simp⟩
  have h := combine_fold_inv (ls.flatten) [] [] h0
  rw [List.nil_append] at h
  rw [combine_results, combine_nested_foldl]
  exact h

/-- Witness for `combine_results_spec`: two reports for the same SIP with a
newer and an older modification time. -/
theorem combine_results_spec_witness :
    let r1 : SIPResult :=
      { sip_filename := "Object_1.tar",
        report_path := "accepted/2019-05-28/Object_1.tar/t1-ingest-report.xml",
        report_time := 600, transfer_name := "t1", transfer_path := none,
        status := "accepted" }
    let r2 : SIPResult :=
      { sip_filename := "Object_1.tar",
        report_path := "accepted/2019-05-28/Object_1.tar/t2-ingest-report.xml",
        report_time := 1200, transfer_name := "t2", transfer_path := none,
        status := "accepted" }
    r1.report_time ≤ r2.report_time
    ∧ (combine_results [[r1], [r2]]).Pairwise
        (fun a b => a.sip_filename ≠ b.sip_filename) := by
  intro r1 r2
  exact ⟨(combine_results_spec [[r1], [r2]]).2.2.2 r2 (by decide) r1 (by decide)
    (by decide), (combine_results_spec [[r1], [r2]]).1⟩

/-- Characterization of `filter_preservation_pending` for an object without
a latest package. -/
theorem filter_pending_none_iff (now P U dmin : Int) (o : MuseumObject)
    (h : o.latest_package = none) :
    (filter_preservation_pending now P U dmin o = true ↔
      (o.frozen = false ∧ o.attachment_metadata_hash ≠ none ∧
       o.metadata_hash ≠ none ∧
       (o.created_date = none ∨
         ∃ c, o.created_date = some c ∧ c < now - P))) := by
  cases hcd : o.created_date <;>
    simp [filter_preservation_pending, h, hcd, sqlLt, Option.isSome_iff_ne_none,
      and_assoc]

/-- Characterization of `exclude_preservation_pending` for an object without
a latest package. -/
theorem exclude_pending_none_iff (now P U dmin : Int) (o : MuseumObject)
    (h : o.latest_package = none) :
    (exclude_preservation_pending now P U dmin o = true ↔
      (o.metadata_hash = none ∨ o.attachment_metadata_hash = none ∨
       o.frozen = true ∨ coalesceD o.created_date dmin > now - P)) := by
  simp [exclude_preservation_pending, h, sqlGt, Option.isNone_iff_eq_none,
    or_assoc]

/-- Characterization of `filter_preservation_pending` for an object with a
latest package. -/
theorem filter_pending_some_iff (now P U dmin : Int) (o : MuseumObject)
    (L : MuseumPackage) (h : o.latest_package = some L) :
    (filter_preservation_pending now P U dmin o = true ↔
      (o.frozen = false ∧ o.attachment_metadata_hash ≠ none ∧
       o.metadata_hash ≠ none ∧
       ((coalesceD L.object_modified_date dmin ≠ coalesceD o.modified_date dmin
         ∧ (L.object_modified_date = none ∨
             ∃ t, L.object_modified_date = some t ∧ t < now - U)
         ∧ (sqlNeS o.metadata_hash L.metadata_hash = true ∨
            sqlNeS o.attachment_metadata_hash L.attachment_metadata_hash = true))
        ∨ L.cancelled = true))) := by
  cases homd : L.object_modified_date <;>
    simp [filter_preservation_pending, h, homd, sqlLt,
      Option.isSome_iff_ne_none, and_assoc]

/-- Characterization of `exclude_preservation_pending` for an object with a
latest package. -/
theorem exclude_pending_some_iff (now P U dmin : Int) (o : MuseumObject)
    (L : MuseumPackage) (h : o.latest_package = some L) :
    (exclude_preservation_pending now P U dmin o = true ↔
      (o.metadata_hash = none ∨ o.attachment_metadata_hash = none ∨
       o.frozen = true ∨
       (L.cancelled = false ∧
         (coalesceD L.object_modified_date dmin = coalesceD o.modified_date dmin
          ∨ coalesceD L.object_modified_date dmin > now - U
          ∨ (sqlEqS L.metadata_hash o.metadata_hash = true ∧
             sqlEqS L.attachment_metadata_hash o.attachment_metadata_hash = true))))) := by
  simp [exclude_preservation_pending, h, sqlGt, Option.isNone_iff_eq_none,
    or_assoc]

/-- A SQL inequality and the converse SQL equality cannot both select. -/
theorem sqlNeS_sqlEqS_absurd (a b : Option String)
    (h1 : sqlNeS a b = true) (h2 : sqlEqS b a = true) : False := by
  cases a <;> cases b <;> simp_all [sqlNeS, sqlEqS]

/-- The two query transformations never select the same object (for any
evaluation time whose boundaries lie after the sentinel minimum date). -/
theorem filter_exclude_disjoint (now P U dmin : Int) (o : MuseumObject)
    (hdp : dmin ≤ now - P) (hdu : dmin ≤ now - U) :
    ¬(filter_preservation_pending now P U dmin o = true ∧
      exclude_preservation_pending now P U dmin o = true) := by
  rintro ⟨hf, he⟩
  cases hlp : o.latest_package with
  | none =>
      rw [filter_pending_none_iff now P U dmin o hlp] at hf
      rw [exclude_pending_none_iff now P U dmin o hlp] at he
      obtain ⟨hfz, hamh, hmh, hcd⟩ := hf
      rcases he with he | he | he | he
      · exact hmh he
      · exact hamh he
      · rw [hfz] at he
        exact Bool.noConfusion he
      · rcases hcd with hcd | ⟨c, hcd, hclt⟩
        · rw [hcd] at he
          simp only [coalesceD, Option.getD_none] at he
          omega
        · rw [hcd] at he
          simp only [coalesceD, Option.getD_some] at he
          omega
  | some L =>
      rw [filter_pending_some_iff now P U dmin o L hlp] at hf
      rw [exclude_pending_some_iff now P U dmin o L hlp] at he
      obtain ⟨hfz, hamh, hmh, hbr⟩ := hf
      rcases he with he | he | he | ⟨hcn, hor⟩
      · exact hmh he
      · exact hamh he
      · rw [hfz] at he
        exact Bool.noConfusion he
      · rcases hbr with ⟨hD, hW, hH⟩ | hcancel
        · rcases hor with hor | hor | ⟨he1, he2⟩
          · exact hD hor
          · rcases hW with hW | ⟨t, hW, htlt⟩
            · rw [hW] at hor
              simp only [coalesceD, Option.getD_none] at hor
              omega
            · rw [hW] at hor
              simp only [coalesceD, Option.getD_some] at hor
              omega
          · rcases hH with hH | hH
            · exact sqlNeS_sqlEqS_absurd _ _ hH he1
            · exact sqlNeS_sqlEqS_absurd _ _ hH he2
        · rw [hcancel] at hcn
          exact Bool.noConfusion hcn

/-- Away from the exact boundary timestamps and NULL package hashes, every
object is selected by one of the two query transformations. -/
theorem filter_exclude_complete (now P U dmin : Int) (o : MuseumObject)
    (hcd_hyp : o.latest_package = none → o.created_date ≠ some (now - P))
    (hlp_hyp : ∀ L, o.latest_package = some L →
      L.object_modified_date ≠ some (now - U) ∧
      L.metadata_hash ≠ none ∧ L.attachment_metadata_hash ≠ none) :
    filter_preservation_pending now P U dmin o = true ∨
      exclude_preservation_pending now P U dmin o = true := by
  cases hlp : o.latest_package with
  | none =>
      rw [filter_pending_none_iff now P U dmin o hlp,
        exclude_pending_none_iff now P U dmin o hlp]
      cases hmh : o.metadata_hash with
      | none => exact Or.inr (Or.inl rfl)
      | some x =>
      cases hamh : o.attachment_metadata_hash with
      | none => exact Or.inr (Or.inr (Or.inl rfl))
      | some a =>
      cases hfz : o.frozen with
      | true => exact Or.inr (Or.inr (Or.inr (Or.inl rfl)))
      | false =>
      cases hcd : o.created_date with
      | none => exact Or.inl ⟨rfl, by simp, by simp, Or.inl rfl⟩
      | some c =>
          have hne : c ≠ now - P := by
            intro hceq
            exact hcd_hyp hlp (by rw [hcd, hceq])
          rcases lt_or_gt_of_ne hne with hlt | hgt
          · exact Or.inl ⟨rfl, by simp [hamh], by simp [hmh],
              Or.inr ⟨c, rfl, hlt⟩⟩
          · refine Or.inr (Or.inr (Or.inr (Or.inr ?_)))
            simpa [coalesceD] using hgt
  | some L =>
      rw [filter_pending_some_iff now P U dmin o L hlp,
        exclude_pending_some_iff now P U dmin o L hlp]
      obtain ⟨homd_ne, hlmh_ne, hlamh_ne⟩ := hlp_hyp L hlp
      cases hmh : o.metadata_hash with
      | none => exact Or.inr (Or.inl rfl)
      | some x =>
      cases hamh : o.attachment_metadata_hash with
      | none => exact Or.inr (Or.inr (Or.inl rfl))
      | some a =>
      cases hfz : o.frozen with
      | true => exact Or.inr (Or.inr (Or.inr (Or.inl rfl)))
      | false =>
      cases hcn : L.cancelled with
      | true => exact Or.inl ⟨rfl, by simp [hamh], by simp [hmh], Or.inr rfl⟩
      | false =>
      by_cases hDeq : coalesceD L.object_modified_date dmin =
          coalesceD o.modified_date dmin
      · exact Or.inr (Or.inr (Or.inr (Or.inr ⟨rfl, Or.inl hDeq⟩)))
      · cases hlmh : L.metadata_hash with
        | none => exact absurd hlmh hlmh_ne
        | some lx =>
        cases hlamh : L.attachment_metadata_hash with
        | none => exact absurd hlamh hlamh_ne
        | some la =>
        by_cases hHeq : lx = x ∧ la = a
        · refine Or.inr (Or.inr (Or.inr (Or.inr ⟨rfl, Or.inr (Or.inr ⟨?_, ?_⟩)⟩)))
          · simp [sqlEqS, hlmh, hmh, hHeq.1]
          · simp [sqlEqS, hlamh, hamh, hHeq.2]
        · have hH : sqlNeS (some x) (some lx) = true ∨
              sqlNeS (some a) (some la) = true := by
            rcases not_and_or.mp hHeq with hne | hne
            · exact Or.inl (by simp [sqlNeS]; exact fun hxe => hne hxe.symm)
            · exact Or.inr (by simp [sqlNeS]; exact fun hae => hne hae.symm)
          cases homd : L.object_modified_date with
          | none =>
              rw [homd] at hDeq
              exact Or.inl ⟨rfl, by simp, by simp, Or.inl ⟨hDeq, Or.inl rfl, hH⟩⟩
          | some t =>
              rw [homd] at hDeq
              have htne : t ≠ now - U := by
                intro hteq
                exact homd_ne (by rw [homd, hteq])
              rcases lt_or_gt_of_ne htne with hlt | hgt
              · exact Or.inl ⟨rfl, by simp, by simp,
                  Or.inl ⟨hDeq, Or.inr ⟨t, rfl, hlt⟩, hH⟩⟩
              · refine Or.inr (Or.inr (Or.inr (Or.inr ⟨rfl, Or.inr (Or.inl ?_)⟩)))
                simpa [coalesceD] using hgt

/-- C1 (amended): for every evaluation time whose boundaries lie after the
sentinel minimum date, the sets selected by `filter_preservation_pending`
and `exclude_preservation_pending` are disjoint; and they cover every object
provided the object avoids the exact boundary timestamps
(`created_date = now - P` with no latest package,
`object_modified_date = now - U` on the latest package) and, when a latest
package exists, its two hash columns are non-NULL. At those corner inputs an
object can be selected by neither query (see the counterexample). -/
theorem filter_exclude_partition (now P U dmin : Int) (o : MuseumObject)
    (hdp : dmin ≤ now - P) (hdu : dmin ≤ now - U) :
    (¬(filter_preservation_pending now P U dmin o = true ∧
       exclude_preservation_pending now P U dmin o = true))
    ∧ ((o.latest_package = none → o.created_date ≠ some (now - P)) →
       (∀ L, o.latest_package = some L →
          L.object_modified_date ≠ some (now - U) ∧
          L.metadata_hash ≠ none ∧ L.attachment_metadata_hash ≠ none) →
       (filter_preservation_pending now P U dmin o = true ∨
        exclude_preservation_pending now P U dmin o = true)) :=
  ⟨filter_exclude_disjoint now P U dmin o hdp hdu,
   fun h1 h2 => filter_exclude_complete now P U dmin o h1 h2⟩

/-- C1 counterexample: a non-frozen object with complete hashes, no latest
package, and `created_date` exactly equal to `now - P` is selected by
neither query transformation, so the two sets do not cover all objects. -/
theorem filter_exclude_partition_counterexample :
    let o : MuseumObject :=
      { title := none, preserved := false, frozen := false, freeze_reason := none,
        freeze_source := none, created_date := some 0, modified_date := none,
        metadata_hash := some "a", attachment_metadata_hash := some "",
        latest_package := none }
    filter_preservation_pending 0 0 0 (-1000) o = false
    ∧ exclude_preservation_pending 0 0 0 (-1000) o = false := by
  intro o
  exact ⟨by decide, by decide⟩

/-- Witness for `filter_exclude_partition` at a concrete object away from
the boundary. -/
theorem filter_exclude_partition_witness :
    let o : MuseumObject :=
      { title := none, preserved := false, frozen := false, freeze_reason := none,
        freeze_source := none, created_date := some 0, modified_date := none,
        metadata_hash := some "a", attachment_metadata_hash := some "",
        latest_package := none }
    (¬(filter_preservation_pending 10 1 1 (-1000) o = true ∧
       exclude_preservation_pending 10 1 1 (-1000) o = true))
    ∧ (filter_preservation_pending 10 1 1 (-1000) o = true ∨
       exclude_preservation_pending 10 1 1 (-1000) o = true) := by
  intro o
  exact ⟨(filter_exclude_partition 10 1 1 (-1000) o (by decide) (by decide)).1,
    (filter_exclude_partition 10 1 1 (-1000) o (by decide) (by decide)).2
      (fun _ => by decide) (fun L hL => Option.noConfusion hL)⟩
